import Mathlib

/-!
Verification development for the tagsense data-pipeline framework:
the generic entry store (`DataStructure` / `AppDataStructure` over a SQLite
table), the transformation steps (`Process` subclasses), the installed-process
registry, and the topological scheduler (`sort_processes`).

The Python sources are embedded shallowly:
- a SQLite table is a column list plus a list of rows (association lists of
  column name to value) and a rowid counter;
- `sqlite3` exceptions and Python exceptions are values of `AppError`
  (named after the spec's error taxonomy, each constructor documents the
  concrete Python raise site it stands for);
- the random draws of `os.urandom` / `hashlib` inside `_generate_new_key`
  are an explicit list of candidate keys, and the opaque transformation
  bodies (BLAKE3, the RAM tagger, timestamps) are function parameters.
-/

/-- A SQLite storage value: TEXT, INTEGER or NULL (the only value shapes the
embedded code stores). -/
inductive Value
  | str : String → Value
  | int : Int → Value
  | null : Value
deriving DecidableEq, Repr

/-- A table row / Python dict: an association list from column name to value,
in insertion order (Python dicts preserve insertion order). -/
abbrev Row := List (String × Value)

/-- Dict lookup `d[k]` / `d.get(k)`: the value at the first matching key. -/
def getField (r : Row) (k : String) : Option Value :=
  match r with
  | [] => none
  | (k', v) :: rest => if k' = k then some v else getField rest k

/-- Dict assignment `d[k] = v`: replaces the value of an existing key in
place, otherwise appends the new key at the end (Python dict semantics). -/
def setField (r : Row) (k : String) (v : Value) : Row :=
  match r with
  | [] => [(k, v)]
  | (k', v') :: rest => if k' = k then (k, v) :: rest else (k', v') :: setField rest k v

/-- The key list of a row (Python `data.keys()`, in order). -/
def rowKeys (r : Row) : List String := r.map Prod.fst

/-- Errors of the embedded code, named after the spec's error taxonomy
(section 7).  Each constructor stands for one concrete raise site:
- `missingFieldError fs`: `ValueError(f"Missing required fields: {fs}")` in
  `AppDataStructure.create_entry`;
- `alreadyInstalledError uid`: `Exception(f"Process ... is already installed.")`
  in `registry.mark_process_as_installed`;
- `operationalError msg`: `sqlite3.OperationalError`, e.g. a SELECT or INSERT
  naming a column the table does not have;
- `keyGenExhausted`: stands for divergence of the `_generate_new_key` resample
  loop, which in the model happens when the finite draw list holds no fresh key;
- `keyError k`: Python `KeyError` from `input_data[k]` on a missing dict key;
- `typeError what`: Python `TypeError` (e.g. `Path(x)` on a non-string);
- `fileNotFoundError p`: `FileNotFoundError` from `open(p, "rb")`. -/
inductive AppError
  | missingFieldError : List String → AppError
  | alreadyInstalledError : String → AppError
  | operationalError : String → AppError
  | keyGenExhausted : AppError
  | keyError : String → AppError
  | typeError : String → AppError
  | fileNotFoundError : String → AppError
deriving DecidableEq, Repr

/-- A SQLite table (`SQLITETable` backing state): the declared columns of its
CREATE TABLE statement, the stored rows in insertion order, and the next
auto-assigned rowid.  Stored rows always carry every declared column (SQLite
fills unspecified columns with NULL), so `SELECT *` returns them as they are. -/
structure Table where
  columns : List String
  rows : List Row
  nextRowid : Int
deriving DecidableEq, Repr

/-- `SQLITETable.insert_record`: `INSERT INTO t (data.keys()) VALUES (...)`.
Errors (as sqlite3 does) if the data names a column the table does not have;
otherwise materialises a full row, with the auto `rowid` when none was given,
and appends it. -/
def insertRecord (t : Table) (data : Row) : Except AppError Table :=
  if ∀ k ∈ rowKeys data, k ∈ t.columns then
    .ok { columns := t.columns
          rows := t.rows ++ [t.columns.map (fun c =>
            (c, (getField data c).getD (if c = "rowid" then .int t.nextRowid else .null)))]
          nextRowid := t.nextRowid + 1 }
  else
    .error (.operationalError "table has no column named in the data")

/-- `SELECT * FROM t WHERE col = v` followed by `fetchone()`: errors if the
column does not exist, otherwise the first matching row, if any.  This is
`AppDataStructure.read` (used for the content-hash dedup check). -/
def tableRead (t : Table) (col : String) (v : Value) : Except AppError (Option Row) :=
  if col ∈ t.columns then
    .ok (t.rows.find? (fun r => getField r col == some v))
  else
    .error (.operationalError ("no such column: " ++ col))

/-- `AppDataStructure.read_by_entry_key`: `SELECT * ... WHERE entry_key = ?`. -/
def readByEntryKey (t : Table) (key : String) : Except AppError (Option Row) :=
  tableRead t "entry_key" (.str key)

/-- `AppDataStructure.read_by_input_key`: `SELECT * ... WHERE input_data_key = ?`. -/
def readByInputKey (t : Table) (key : String) : Except AppError (Option Row) :=
  tableRead t "input_data_key" (.str key)

instance {α β : Type} [DecidableEq α] [DecidableEq β] : DecidableEq (Except α β) := by
  intro a b
  cases a <;> cases b <;> first
    | (rename_i x y; exact decidable_of_iff (x = y) (by constructor <;> (intro h; first | rw [h] | injection h)))
    | (apply isFalse; intro h; injection h)

/-- `DataStructure._generate_new_key`: sample a random token and re-sample
while `read_by_entry_key` finds it.  The random stream is the explicit list
`draws`; the result is the first draw the store does not already contain
(`none` models the loop never terminating, which needs every draw stale). -/
def generateNewKey (draws : List String) (t : Table) : Option String :=
  draws.find? (fun k => decide (readByEntryKey t k = .ok none))

/-- `input_data_structure.get_uid() if input_data_structure else None`: the
value stamped into the `input_structure_uid` field. -/
def uidValue : Option String → Value
  | some u => .str u
  | none => .null

/-- The provenance stamping of `create_entry`: the four successive dict
assignments `data["entry_key"] = ...` through `data["input_data_key"] = ...`. -/
def stampRow (data : Row) (entryKey processUid : String)
    (inputStructureUid : Option String) (inputDataKey : String) : Row :=
  setField (setField (setField (setField data
    "entry_key" (.str entryKey))
    "process_uid" (.str processUid))
    "input_structure_uid" (uidValue inputStructureUid))
    "input_data_key" (.str inputDataKey)

/-- `required_fields - data.keys()`: the required columns (minus the auto
`rowid`) the stamped dict still lacks. -/
def missingFieldsOf (required : List String) (data : Row) : List String :=
  (required.filter (fun c => c ≠ "rowid")).filter (fun f => getField data f == none)

/-- `AppDataStructure.create_entry`: generates a fresh entry key, stamps the
key and the three provenance fields into `data` (mutating the caller's dict),
checks the table's required columns minus the auto `rowid`, and inserts.
Returns the Python `(entry_key, data)` pair on success; the paired table is
the store state after the call, unchanged whenever an exception is raised. -/
def createEntry (required : List String) (draws : List String) (t : Table)
    (data : Row) (processUid : String) (inputStructureUid : Option String)
    (inputDataKey : String) : Except AppError (String × Row) × Table :=
  match generateNewKey draws t with
  | none => (.error .keyGenExhausted, t)
  | some entryKey =>
    let data4 := stampRow data entryKey processUid inputStructureUid inputDataKey
    let missingFields := missingFieldsOf required data4
    if missingFields ≠ [] then
      (.error (.missingFieldError missingFields), t)
    else
      match insertRecord t data4 with
      | .error e => (.error e, t)
      | .ok t' => (.ok (entryKey, data4), t')

/-- The entry-key column values of the stored rows, in order. -/
def entryKeys (t : Table) : List Value :=
  t.rows.filterMap (fun r => getField r "entry_key")

/-- `FileTable.required_columns` (`data_structures/file_table/file_table.py`).
Note it requires `md5_hash` — not the `blake3_hash` the ingestion process
writes. -/
def fileTableRequired : List String :=
  ["rowid", "entry_key", "process_uid", "input_structure_uid", "input_data_key",
   "md5_hash", "original_name", "file_path", "original_file_path", "file_size",
   "file_extension", "date_created", "date_modified", "import_timestamp"]

/-- The `file_table` produced by `FileTable.create_table`: its CREATE TABLE
declares exactly the required columns (with `md5_hash`, no `blake3_hash`). -/
def freshFileTable : Table :=
  { columns := fileTableRequired, rows := [], nextRowid := 1 }

/-- `RamGeneratedTagsTable.required_columns`. -/
def ramGeneratedTagsRequired : List String :=
  ["rowid", "entry_key", "process_uid", "input_structure_uid", "input_data_key", "tags"]

/-- The `ram_generated_tags` table produced by `RamGeneratedTagsTable.create_table`. -/
def freshRamGeneratedTags : Table :=
  { columns := ramGeneratedTagsRequired, rows := [], nextRowid := 1 }

/-- `StoredRandomTextTable.required_columns`. -/
def storedRandomTextRequired : List String :=
  ["rowid", "entry_key", "process_uid", "input_structure_uid", "input_data_key", "data"]

/-- The `stored_random_text_records` table produced by
`StoredRandomTextTable.create_table`. -/
def freshStoredRandomText : Table :=
  { columns := storedRandomTextRequired, rows := [], nextRowid := 1 }

/-- `ManualDataStructure._storage`: the in-memory store for manual input,
mapping entry key to the stored data dict (`_storage[key]["data"]`). -/
abbrev ManualStore := List (String × Row)

/-- `ManualDataStructure.read_by_entry_key` (inherited from `DataStructure`):
`_storage.get(key)["data"] if key in _storage else None`. -/
def manualReadByEntryKey (s : ManualStore) (key : String) : Option Row :=
  (s.find? (fun p => p.1 == key)).map Prod.snd

/-- Result of one `Process.execute` call: `.ok (message, payload)` is the
Python `(msg, data)` return (payload `none` is Python `None`); `.error e` is
an exception escaping `execute`. -/
abbrev ExecResult := Except AppError (String × Option Row)

/-- `Process.deterministic` for `RAMGenerateTags`: not overridden, so it
inherits the `Process` default `deterministic = True`. -/
def ramGenerateTagsDeterministic : Bool := true

/-- `Process.deterministic` for `StoreRandomText`: explicitly `False`
("an example repeatable user-created process that IS repeatable"). -/
def storeRandomTextDeterministic : Bool := false

/-- `Process.deterministic` for `FileSystemIntegration`: not overridden, so
it inherits the `Process` default `deterministic = True`. -/
def fileSystemIntegrationDeterministic : Bool := true

/-- `RAMGenerateTags.execute` (`ram_tag_generation.py`).  State threaded
through: the `file_table` input store and the `ram_generated_tags` output
store.  `genTags` is the opaque transformation body (the RAM model inference
composed with `Path(...).as_posix()` normalisation).  Returns the `(msg,
payload)` pair and the output store after the call. -/
def ramGenerateTagsExecute (genTags : String → String) (draws : List String)
    (files ramTags : Table) (inputDataKey : String) : ExecResult × Table :=
  -- Check if the process has already been run
  match readByInputKey ramTags inputDataKey with
  | .error e => (.error e, ramTags)
  | .ok (some _) =>
    (.ok ("ram_generate_tags already executed for " ++ inputDataKey ++
          " from file_table. Skipping.", none), ramTags)
  | .ok none =>
    -- Otherwise, create a new record
    match readByEntryKey files inputDataKey with
    | .error e => (.error e, ramTags)
    | .ok none => (.ok ("No matching file record found in database.", none), ramTags)
    | .ok (some fileRecord) =>
      match getField fileRecord "file_path" with
      | some (.str filePath) =>
        let tags := genTags filePath
        let data : Row := [("tags", .str tags)]
        match createEntry ramGeneratedTagsRequired draws ramTags data
            "ram_generate_tags" (some "file_table") inputDataKey with
        | (.error e, t) => (.error e, t)
        | (.ok (_, data'), t) =>
          (.ok ("ram_generate_tags process completed for " ++ inputDataKey ++
                " from file_table.", some data'), t)
      | some _ => (.error (.typeError "file_path"), ramTags)
      | none => (.error (.keyError "file_path"), ramTags)

/-- `StoreRandomText.execute` (`store_random_text.py`): creates a new record
without checking whether the process has already run for the input key
("Doesn't need to check if the process has already been run").  `randomText`
stands for the `str(os.urandom(8))` draw.  The completion message embeds
`f"{cls.input}"`, which for a class object renders as Python's class repr;
the model abbreviates it. -/
def storeRandomTextExecute (randomText : String) (draws : List String)
    (storedRandomText : Table) (inputDataKey : String) : ExecResult × Table :=
  let data : Row := [("data", .str ("Random data: " ++ randomText))]
  match createEntry storedRandomTextRequired draws storedRandomText data
      "StoreRandomText" (some "file_table") inputDataKey with
  | (.error e, t) => (.error e, t)
  | (.ok (_, data'), t) =>
    (.ok ("StoreRandomText completed for " ++ inputDataKey ++
          " from <class Files>.", some data'), t)

/-- Opaque environment of `FileSystemIntegration.execute`: the readable file
system (path to byte contents), the BLAKE3 digest, and the sizes and
timestamps `os.path` reports for the managed copy. -/
structure FsEnv where
  fs : String → Option (List Nat)
  blake3 : List Nat → String
  sizeOf : String → Int
  ctimeOf : String → String
  mtimeOf : String → String
  now : String
  clientFilesDir : String

/-- `os.path.split(p)[1]`: the final path component. -/
def baseName (p : String) : String :=
  (p.splitOn "/").getLastD p

/-- `os.path.splitext(name)[1]`: the extension from the last dot, empty when
the name has no dot.  (The hidden-file corner case of names that are all
leading dots is not modelled; no claim touches it.) -/
def extName (name : String) : String :=
  let parts := name.splitOn "."
  if parts.length ≤ 1 then "" else "." ++ parts.getLastD ""

/-- The value a found `sqlite3.Row` yields for a column
(`existing['entry_key']`), rendered into the message text. -/
def valueText : Option Value → String
  | some (.str s) => s
  | some (.int n) => toString n
  | _ => ""

/-- `FileSystemIntegration.execute` (`file_system_integration.py`).  State:
the in-memory manual input store, the `file_table` output store, and the list
of managed copies made so far (`shutil.copy2` destinations, as destination
and source path pairs).  Returns the `(msg, payload)` pair, the output store
and the managed copies after the call. -/
def fileSystemIntegrationExecute (env : FsEnv) (draws : List String)
    (manual : ManualStore) (files : Table) (managed : List (String × String))
    (inputDataKey : String) : ExecResult × Table × List (String × String) :=
  -- Parse the input data
  match manualReadByEntryKey manual inputDataKey with
  | none =>
    (.ok ("Error in file_system_integration: No data found for key " ++
          inputDataKey ++ ".", none), files, managed)
  | some inputData =>
    match getField inputData "file_path" with
    | none => (.error (.keyError "file_path"), files, managed)
    | some (.int _) | some .null => (.error (.typeError "file_path"), files, managed)
    | some (.str filePath) =>
      -- Hash the file and check if it already exists in the database
      match env.fs filePath with
      | none => (.error (.fileNotFoundError filePath), files, managed)
      | some contents =>
        let blake3Hash := env.blake3 contents
        match tableRead files "blake3_hash" (.str blake3Hash) with
        | .error e => (.error e, files, managed)
        | .ok (some existing) =>
          (.ok ("file_system_integration already executed for " ++ filePath ++
                " and has entry key " ++ valueText (getField existing "entry_key") ++
                ". Skipping.", none), files, managed)
        | .ok none =>
          -- If not, create new record
          let originalName := baseName filePath
          let fileExtension := (extName originalName).toLower
          let newFilename := blake3Hash ++ fileExtension
          let destinationPath := env.clientFilesDir ++ "/" ++ newFilename
          let managed' := managed ++ [(destinationPath, filePath)]
          let data : Row :=
            [("blake3_hash", .str blake3Hash),
             ("original_name", .str originalName),
             ("file_path", .str destinationPath),
             ("original_file_path", .str filePath),
             ("file_size", .int (env.sizeOf destinationPath)),
             ("file_extension", .str fileExtension),
             ("date_created", .str (env.ctimeOf destinationPath)),
             ("date_modified", .str (env.mtimeOf destinationPath)),
             ("import_timestamp", .str env.now)]
          match createEntry fileTableRequired draws files data
              "file_system_integration" (some "Manual") inputDataKey with
          | (.error e, t) => (.error e, t, managed')
          | (.ok (_, data'), t) =>
            (.ok ("file_system_integration completed for " ++ originalName ++ ".",
                  some data'), t, managed')

/-- The `installed_processes` ledger created by `InstalledProcesses.create_table`:
`rowid INTEGER PRIMARY KEY AUTOINCREMENT, process_uid TEXT UNIQUE NOT NULL`. -/
def freshInstalledProcesses : Table :=
  { columns := ["rowid", "process_uid"], rows := [], nextRowid := 1 }

/-- The membership test both registry functions perform:
`any(record["process_uid"] == process_cls.uid for record in fetch_all(conn))`. -/
def ledgerContains (led : Table) (uid : String) : Bool :=
  led.rows.any (fun r => getField r "process_uid" == some (.str uid))

/-- `registry.mark_process_as_installed`: fetches all ledger records, raises
`Exception(f"Process ... is already installed.")` when the UID is already
present (constructor `alreadyInstalledError`, per the spec's taxonomy), else
inserts `{"process_uid": uid}`.  The paired table is the ledger after the
call (unchanged when the error is raised). -/
def markProcessAsInstalled (led : Table) (uid : String) : Except AppError Unit × Table :=
  if ledgerContains led uid then
    (.error (.alreadyInstalledError uid), led)
  else
    match insertRecord led [("process_uid", .str uid)] with
    | .error e => (.error e, led)
    | .ok led' => (.ok (), led')

/-- `registry.is_process_installed`: fetches all ledger records and tests
membership of the process UID. -/
def isProcessInstalled (led : Table) (uid : String) : Bool :=
  ledgerContains led uid

/-- `RunProcessesWidget.run_process` (`util.py`): looks up the entry keys
recorded for the process's input store (`none` models
`process.input not in self.data_structures_to_entry_keys`), then calls
`process.execute` for each key in turn.  An exception from `execute` is
caught, converted to an error message, logged — and then re-raised
(`raise e`), so it still escapes `run_process`; the model therefore returns
`.error e` in that case.  The Python `msg, data` locals start as
`(None, None)`, hence the `Option` message. -/
def runProcess (exec : String → Table → ExecResult × Table)
    (entryKeysForInput : Option (List String)) (output : Table)
    (processName : String) : Except AppError (Option String × Option Row) × Table :=
  match entryKeysForInput with
  | none => (.ok (some ("Error: Missing input data for " ++ processName ++ "."), none), output)
  | some keys => runProcessLoop exec keys output (none, none)
where
  /-- The `for entry_key in ...: msg, data = process.execute(...)` loop. -/
  runProcessLoop (exec : String → Table → ExecResult × Table) :
      List String → Table → Option String × Option Row →
      Except AppError (Option String × Option Row) × Table
    | [], t, acc => (.ok acc, t)
    | k :: rest, t, _ =>
      match exec k t with
      | (.error e, t') => (.error e, t')
      | (.ok (msg, data), t') => runProcessLoop exec rest t' (some msg, data)

/-- A `Process` as the scheduler sees it (`sort_processes` in `util.py`):
its UID and the UIDs of its input and output data structures.  Python
compares the `DataStructure` classes by object identity; distinct structures
have distinct UIDs, so UID equality stands in for it. -/
structure Proc where
  uid : String
  input : String
  output : String
deriving DecidableEq, Repr

/-- The producer/consumer edge of `sort_processes`: for each ordered pair of
distinct list members, `p1.output == p2.input` makes `p2` a consumer of `p1`
(`adjacency[p1].append(p2)` / `in_degree[p2] += 1`). -/
def procEdge (p q : Proc) : Bool := (q != p) && (p.output == q.input)

/-- `adjacency[p]`: the consumers of `p` among `ps`, in list order. -/
def adjacencyOf (ps : List Proc) (p : Proc) : List Proc :=
  ps.filter (fun q => procEdge p q)

/-- `in_degree[p]` as the doubly nested loop leaves it: one increment per
distinct `q` in `ps` with `q.output == p.input`.  Python's counter is an
`int` that can go negative during the main loop, hence `Int`. -/
def inDegreeOf (ps : List Proc) (p : Proc) : Int :=
  ((ps.filter (fun q => procEdge q p)).length : Int)

/-- One dequeue step's neighbor pass: `for neighbor in adjacency[current]:
in_degree[neighbor] -= 1; if in_degree[neighbor] == 0: queue.append(neighbor)`.
The fold carries the updated in-degree map and the keys appended to the
queue, in order. -/
def decrStep (acc : (Proc → Int) × List Proc) (n : Proc) : (Proc → Int) × List Proc :=
  let d := acc.1 n - 1
  ((fun m => if m = n then d else acc.1 m), if d = 0 then acc.2 ++ [n] else acc.2)

def decrementPass (neighbors : List Proc) (deg : Proc → Int) :
    (Proc → Int) × List Proc :=
  neighbors.foldl decrStep (deg, [])

/-- The `while queue:` loop of `sort_processes` (Kahn's algorithm), with
explicit fuel; `sortProcesses` runs it with fuel `ps.length`, which the
theorems show is never exhausted before the queue empties. -/
def kahnLoop (adj : Proc → List Proc) :
    Nat → List Proc → (Proc → Int) → List Proc → List Proc
  | 0, _, _, result => result
  | _ + 1, [], _, result => result
  | fuel + 1, current :: queue, deg, result =>
    let pass := decrementPass (adj current) deg
    kahnLoop adj fuel (queue ++ pass.2) pass.1 (result ++ [current])

/-- `sort_processes` (`util.py`): Kahn's algorithm over the
producer/consumer relation; processes never dequeued (cycle members) are
appended afterwards in original relative order. -/
def sortProcesses (ps : List Proc) : List Proc :=
  let queue := ps.filter (fun p => inDegreeOf ps p == 0)
  let result := kahnLoop (adjacencyOf ps) ps.length queue (inDegreeOf ps) []
  result ++ ps.filter (fun p => !(result.contains p))


theorem getField_setField_self (r : Row) (k : String) (v : Value) :
    getField (setField r k v) k = some v := by
  induction r with
  | nil => simp [setField, getField]
  | cons p rest ih =>
    by_cases h : p.1 = k
    · simp [setField, h, getField]
    · simp [setField, getField, h, ih]

theorem getField_setField_ne (r : Row) (k k' : String) (v : Value) (h : k' ≠ k) :
    getField (setField r k v) k' = getField r k' := by
  induction r with
  | nil =>
    simp only [setField, getField]
    rw [if_neg (fun hh => h hh.symm)]
  | cons p rest ih =>
    obtain ⟨a, b⟩ := p
    simp only [setField, getField]
    by_cases ha : a = k
    · subst ha
      simp only [if_pos rfl, getField]
      rw [if_neg (fun hh => h hh.symm), if_neg (fun hh => h hh.symm)]
    · rw [if_neg ha]
      simp only [getField]
      by_cases ha' : a = k'
      · rw [if_pos ha', if_pos ha']
      · rw [if_neg ha', if_neg ha', ih]

theorem getField_some_mem_rowKeys (r : Row) (k : String) (v : Value)
    (h : getField r k = some v) : k ∈ rowKeys r := by
  induction r with
  | nil => simp [getField] at h
  | cons p rest ih =>
    by_cases hp : p.1 = k
    · simp [rowKeys, hp]
    · simp only [getField, if_neg hp] at h
      simp only [rowKeys, List.map_cons, List.mem_cons]
      exact Or.inr (ih h)

theorem getField_map_cols (l : List String) (g : String → Value) (c : String) :
    getField (l.map (fun c => (c, g c))) c = if c ∈ l then some (g c) else none := by
  induction l with
  | nil => simp [getField]
  | cons a rest ih =>
    by_cases h : a = c
    · simp [getField, h]
    · simp [getField, h, ih, Ne.symm h]

theorem generateNewKey_some (draws : List String) (t : Table) (k : String)
    (h : generateNewKey draws t = some k) : readByEntryKey t k = .ok none := by
  have := List.find?_some h
  simpa using this

theorem insertRecord_ok (t : Table) (data : Row) (t' : Table)
    (h : insertRecord t data = .ok t') :
    t'.columns = t.columns ∧
    t'.rows = t.rows ++ [t.columns.map (fun c =>
      (c, (getField data c).getD (if c = "rowid" then .int t.nextRowid else .null)))] ∧
    t'.nextRowid = t.nextRowid + 1 ∧
    ∀ k ∈ rowKeys data, k ∈ t.columns := by
  unfold insertRecord at h
  by_cases hc : ∀ k ∈ rowKeys data, k ∈ t.columns
  · rw [if_pos hc] at h
    obtain rfl := by simpa using h
    exact ⟨rfl, rfl, rfl, hc⟩
  · rw [if_neg hc] at h
    exact absurd h (by simp)

/-- Unpacking a successful `create_entry` call: the generated key was fresh,
the returned (mutated) dict is the stamped one, and the insert succeeded. -/
theorem createEntry_ok {required draws : List String} {t : Table} {data : Row}
    {processUid : String} {inputStructureUid : Option String} {inputDataKey : String}
    {k : String} {d : Row} {t' : Table}
    (h : createEntry required draws t data processUid inputStructureUid inputDataKey =
      (.ok (k, d), t')) :
    generateNewKey draws t = some k ∧
    d = stampRow data k processUid inputStructureUid inputDataKey ∧
    insertRecord t d = .ok t' := by
  unfold createEntry at h
  cases hg : generateNewKey draws t with
  | none => rw [hg] at h; exact absurd h (by simp)
  | some k0 =>
    rw [hg] at h
    simp only at h
    by_cases hm : missingFieldsOf required
        (stampRow data k0 processUid inputStructureUid inputDataKey) ≠ []
    · rw [if_pos hm] at h; exact absurd h (by simp)
    · rw [if_neg hm] at h
      cases hi : insertRecord t (stampRow data k0 processUid inputStructureUid inputDataKey) with
      | error e => rw [hi] at h; exact absurd h (by simp)
      | ok t1 =>
        rw [hi] at h
        have h' : (k0 = k ∧ stampRow data k0 processUid inputStructureUid inputDataKey = d) ∧ t1 = t' := by
          simpa using h
        obtain ⟨⟨rfl, rfl⟩, rfl⟩ := h'
        exact ⟨rfl, rfl, hi⟩

/-- Field values of the stamped dict: the four stamped fields take the
stamped values, every other key keeps its value from `data`. -/
theorem getField_stampRow (data : Row) (k pu : String) (isu : Option String) (idk : String) :
    getField (stampRow data k pu isu idk) "entry_key" = some (.str k) ∧
    getField (stampRow data k pu isu idk) "process_uid" = some (.str pu) ∧
    getField (stampRow data k pu isu idk) "input_structure_uid" = some (uidValue isu) ∧
    getField (stampRow data k pu isu idk) "input_data_key" = some (.str idk) ∧
    ∀ f, f ∉ ["entry_key", "process_uid", "input_structure_uid", "input_data_key"] →
      getField (stampRow data k pu isu idk) f = getField data f := by
  unfold stampRow
  refine ⟨?_, ?_, ?_, ?_, ?_⟩
  · rw [getField_setField_ne _ _ _ _ (by decide), getField_setField_ne _ _ _ _ (by decide),
      getField_setField_ne _ _ _ _ (by decide), getField_setField_self]
  · rw [getField_setField_ne _ _ _ _ (by decide), getField_setField_ne _ _ _ _ (by decide),
      getField_setField_self]
  · rw [getField_setField_ne _ _ _ _ (by decide), getField_setField_self]
  · rw [getField_setField_self]
  · intro f hf
    simp only [List.mem_cons, List.not_mem_nil, or_false] at hf
    push_neg at hf
    obtain ⟨h1, h2, h3, h4⟩ := hf
    rw [getField_setField_ne _ _ _ _ h4, getField_setField_ne _ _ _ _ h3,
      getField_setField_ne _ _ _ _ h2, getField_setField_ne _ _ _ _ h1]

theorem tableRead_ok (t : Table) (col : String) (v : Value) (o : Option Row)
    (h : tableRead t col v = .ok o) :
    col ∈ t.columns ∧ t.rows.find? (fun r => getField r col == some v) = o := by
  unfold tableRead at h
  by_cases hc : col ∈ t.columns
  · rw [if_pos hc] at h
    exact ⟨hc, by simpa using h⟩
  · rw [if_neg hc] at h
    exact absurd h (by simp)

/-- The row a successful `create_entry` materialised, as `SELECT *` returns
it: every declared column, with the stamped dict's values, the auto `rowid`,
and NULL elsewhere. -/
def materializedRow (t : Table) (d : Row) : Row :=
  t.columns.map (fun c =>
    (c, (getField d c).getD (if c = "rowid" then .int t.nextRowid else .null)))

/-- After a successful `create_entry`, `read_by_entry_key` on the returned
key finds exactly the materialised row. -/
theorem createEntry_readBack {required draws : List String} {t : Table} {data : Row}
    {processUid : String} {inputStructureUid : Option String} {inputDataKey : String}
    {k : String} {d : Row} {t' : Table}
    (h : createEntry required draws t data processUid inputStructureUid inputDataKey =
      (.ok (k, d), t')) :
    readByEntryKey t' k = .ok (some (materializedRow t d)) := by
  obtain ⟨hg, hd, hi⟩ := createEntry_ok h
  obtain ⟨hcols, hrows, _, _⟩ := insertRecord_ok _ _ _ hi
  have hfresh := generateNewKey_some _ _ _ hg
  obtain ⟨hmem, hfind⟩ := tableRead_ok _ _ _ _ hfresh
  unfold readByEntryKey tableRead
  rw [hcols, if_pos hmem, hrows]
  rw [List.find?_append, hfind]
  have hek : getField (materializedRow t d) "entry_key" = some (.str k) := by
    unfold materializedRow
    rw [getField_map_cols, if_pos hmem, hd]
    rw [(getField_stampRow data k processUid inputStructureUid inputDataKey).1]
    rfl
  rw [Option.none_or]
  refine congrArg Except.ok ?_
  show List.find? _ [materializedRow t d] = some (materializedRow t d)
  rw [List.find?_cons_of_pos _ (by simp [hek])]

/-- C1: for the non-repeatable tag-generation Process (`RAMGenerateTags`,
which implements the §4.2 step-1 check), whenever the output Store already
holds an entry whose `input_data_key` equals the input key, `execute` returns
the skip message with a `None` payload and the output Store is returned
unchanged — no new entry, same entry count. -/
theorem ramGenerateTags_skip_preserves_output (genTags : String → String)
    (draws : List String) (files ramTags : Table) (inputDataKey : String) (e : Row)
    (hexisting : readByInputKey ramTags inputDataKey = .ok (some e)) :
    ramGenerateTagsExecute genTags draws files ramTags inputDataKey =
      (.ok ("ram_generate_tags already executed for " ++ inputDataKey ++
            " from file_table. Skipping.", none), ramTags) := by
  unfold ramGenerateTagsExecute
  rw [hexisting]

/-- A `ram_generated_tags` store already holding one entry produced for input
key `E1` (fixture for concrete instantiations). -/
def ramTagsWithE1 : Table :=
  { columns := ramGeneratedTagsRequired
    rows := [[("rowid", .int 1), ("entry_key", .str "k9"),
              ("process_uid", .str "ram_generate_tags"),
              ("input_structure_uid", .str "file_table"),
              ("input_data_key", .str "E1"), ("tags", .str "cat")]]
    nextRowid := 2 }

theorem ramGenerateTags_skip_preserves_output_witness :
    ramGenerateTagsExecute (fun _ => "tags") ["k2"] freshFileTable ramTagsWithE1 "E1" =
      (.ok ("ram_generate_tags already executed for E1 from file_table. Skipping.", none),
       ramTagsWithE1) :=
  ramGenerateTags_skip_preserves_output (fun _ => "tags") ["k2"] freshFileTable
    ramTagsWithE1 "E1" _ (by rfl)

/-- C6: `create_entry` on a data mapping lacking a required field other than
the auto-generated ones raises `MissingFieldError` (the
`ValueError("Missing required fields: ...")` of the source) and persists
nothing: the Store is returned unchanged. -/
theorem createEntry_missing_required_field (required draws : List String) (t : Table)
    (data : Row) (processUid : String) (inputStructureUid : Option String)
    (inputDataKey f : String)
    (hreq : f ∈ required)
    (hauto : f ∉ ["rowid", "entry_key", "process_uid", "input_structure_uid", "input_data_key"])
    (hlacks : getField data f = none)
    (hkey : generateNewKey draws t ≠ none) :
    ∃ missing, f ∈ missing ∧
      createEntry required draws t data processUid inputStructureUid inputDataKey =
        (.error (.missingFieldError missing), t) := by
  obtain ⟨k, hk⟩ := Option.ne_none_iff_exists'.mp hkey
  have hf4 : getField (stampRow data k processUid inputStructureUid inputDataKey) f = none := by
    rw [(getField_stampRow data k processUid inputStructureUid inputDataKey).2.2.2.2 f
      (by intro hmem; apply hauto; simp only [List.mem_cons] at hmem ⊢; tauto)]
    exact hlacks
  have hfmem : f ∈ missingFieldsOf required (stampRow data k processUid inputStructureUid inputDataKey) := by
    unfold missingFieldsOf
    rw [List.mem_filter, List.mem_filter]
    refine ⟨⟨hreq, ?_⟩, by simp [hf4]⟩
    simp only [decide_eq_true_eq]
    intro hfr
    exact hauto (by simp [hfr])
  refine ⟨missingFieldsOf required (stampRow data k processUid inputStructureUid inputDataKey),
    hfmem, ?_⟩
  unfold createEntry
  rw [hk]
  simp only
  rw [if_pos (by exact fun hnil => by simp [hnil] at hfmem)]

theorem createEntry_missing_required_field_witness :
    ∃ missing, "md5_hash" ∈ missing ∧
      createEntry fileTableRequired ["k1"] freshFileTable
          [("original_name", .str "x")] "file_system_integration" none "M1" =
        (.error (.missingFieldError missing), freshFileTable) :=
  createEntry_missing_required_field fileTableRequired ["k1"] freshFileTable
    [("original_name", .str "x")] "file_system_integration" none "M1" "md5_hash"
    (by decide) (by decide) (by rfl) (by decide)

/-- C7: install-once.  On a ledger with the `installed_processes` schema where
the Process UID is not yet installed: `is_installed` is false before (the
hypothesis), `mark_installed` persists exactly one record, `is_installed` is
true after, and a second `mark_installed` raises `AlreadyInstalledError`
(the source's `Exception("Process ... is already installed.")`) leaving the
ledger unchanged — strict, not idempotent, no duplicate record. -/
theorem markProcessAsInstalled_install_once (led : Table) (uid : String)
    (hcols : led.columns = ["rowid", "process_uid"])
    (hnot : isProcessInstalled led uid = false) :
    ∃ led', markProcessAsInstalled led uid = (.ok (), led') ∧
      led'.rows = led.rows ++
        [[("rowid", .int led.nextRowid), ("process_uid", .str uid)]] ∧
      isProcessInstalled led' uid = true ∧
      markProcessAsInstalled led' uid = (.error (.alreadyInstalledError uid), led') := by
  have hfalse : ledgerContains led uid = false := hnot
  have hrow : led.columns.map (fun c =>
      (c, (getField [("process_uid", .str uid)] c).getD
        (if c = "rowid" then .int led.nextRowid else .null))) =
      [("rowid", .int led.nextRowid), ("process_uid", .str uid)] := by
    rw [hcols]
    rfl
  have hins : insertRecord led [("process_uid", .str uid)] =
      .ok { columns := led.columns
            rows := led.rows ++
              [[("rowid", .int led.nextRowid), ("process_uid", .str uid)]]
            nextRowid := led.nextRowid + 1 } := by
    unfold insertRecord
    rw [if_pos (by intro x hx; simp [rowKeys] at hx; simp [hx, hcols])]
    rw [hrow]
  have hafter : ledgerContains
      { columns := led.columns
        rows := led.rows ++ [[("rowid", .int led.nextRowid), ("process_uid", .str uid)]]
        nextRowid := led.nextRowid + 1 } uid = true := by
    unfold ledgerContains
    simp [List.any_append, getField]
  refine ⟨_, ?_, rfl, hafter, ?_⟩
  · unfold markProcessAsInstalled
    rw [hfalse]
    simp only [Bool.false_eq_true, if_false, hins]
  · unfold markProcessAsInstalled
    rw [hafter]
    simp only [if_true]

theorem markProcessAsInstalled_install_once_witness :
    ∃ led', markProcessAsInstalled freshInstalledProcesses "ram_generate_tags" = (.ok (), led') ∧
      led'.rows = freshInstalledProcesses.rows ++
        [[("rowid", .int freshInstalledProcesses.nextRowid),
          ("process_uid", .str "ram_generate_tags")]] ∧
      isProcessInstalled led' "ram_generate_tags" = true ∧
      markProcessAsInstalled led' "ram_generate_tags" =
        (.error (.alreadyInstalledError "ram_generate_tags"), led') :=
  markProcessAsInstalled_install_once freshInstalledProcesses "ram_generate_tags"
    (by rfl) (by rfl)

/-- C2 (failing evaluation): content-addressed ingestion cannot reach its
dedup or copy behaviour on the code as written.  `FileTable` declares
`md5_hash` and no `blake3_hash` column, while `FileSystemIntegration.execute`
looks up and inserts `blake3_hash`; so on any `file_table`-schema output
store, as soon as the input entry resolves to a readable file, the dedup
lookup `read(column_name="blake3_hash", ...)` raises
`sqlite3.OperationalError` — the exception escapes `execute`, no entry is
created, no managed copy is made, for duplicate and fresh content alike. -/
theorem fileSystemIntegration_ingest_raises (env : FsEnv) (draws : List String)
    (manual : ManualStore) (files : Table) (managed : List (String × String))
    (inputDataKey filePath : String) (inputData : Row) (contents : List Nat)
    (hin : manualReadByEntryKey manual inputDataKey = some inputData)
    (hfp : getField inputData "file_path" = some (.str filePath))
    (hfs : env.fs filePath = some contents)
    (hcols : files.columns = fileTableRequired) :
    fileSystemIntegrationExecute env draws manual files managed inputDataKey =
      (.error (.operationalError "no such column: blake3_hash"), files, managed) := by
  have hread : tableRead files "blake3_hash" (.str (env.blake3 contents)) =
      .error (.operationalError "no such column: blake3_hash") := by
    unfold tableRead
    rw [if_neg (by rw [hcols]; decide)]
    rfl
  simp only [fileSystemIntegrationExecute, hin, hfp, hfs, hread]

/-- The manual input store holding the user-chosen path for entry key `M1`
(fixture for concrete instantiations). -/
def manualWithPhoto : ManualStore :=
  [("M1", [("file_path", .str "/home/user/photo.jpg")])]

/-- A concrete opaque environment: one readable file, a fixed digest and
fixed timestamps (fixture for concrete instantiations). -/
def envPhoto : FsEnv :=
  FsEnv.mk (fun p => if p = "/home/user/photo.jpg" then some [1, 2, 3] else none)
    (fun _ => "abc123") (fun _ => 3) (fun _ => "2025-01-01T00:00:00")
    (fun _ => "2025-01-01T00:00:00") "2025-01-02T00:00:00" "/data/client_files"

theorem fileSystemIntegration_ingest_raises_witness :
    fileSystemIntegrationExecute envPhoto ["k1"] manualWithPhoto freshFileTable [] "M1" =
      (.error (.operationalError "no such column: blake3_hash"), freshFileTable, []) :=
  fileSystemIntegration_ingest_raises envPhoto ["k1"] manualWithPhoto freshFileTable []
    "M1" "/home/user/photo.jpg" [("file_path", .str "/home/user/photo.jpg")] [1, 2, 3]
    (by rfl) (by rfl) (by rfl) (by rfl)

/-- C9 (failing evaluation): `run_process` does not confine a failing step.
Driving the ingestion Process through `RunProcessesWidget.run_process` on a
fresh `file_table` makes `execute` raise (the `blake3_hash` lookup), and
`run_process` — despite building the failure message and logging it —
re-raises the exception (`raise e`), so the caller of `run_process` receives
the exception rather than a `(message, None)` failure return. -/
theorem runProcess_propagates_exception :
    runProcess
      (fun k t =>
        let r := fileSystemIntegrationExecute envPhoto ["k1"] manualWithPhoto t [] k
        (r.1, r.2.1))
      (some ["M1"]) freshFileTable "file_system_integration" =
      (.error (.operationalError "no such column: blake3_hash"), freshFileTable) := by
  rfl

/-- C10 counterexample: `StoreRandomText.execute` with an input key that has
no entry in its input Store (`Files` — the fresh `file_table` holds no entry
with key `DANGLING`) does not return an error message with a `None` payload:
it never reads the input store, returns a success message with a non-`None`
payload, and creates one new entry in the output Store. -/
theorem storeRandomText_dangling_key_creates_entry :
    readByEntryKey freshFileTable "DANGLING" = .ok none ∧
    (storeRandomTextExecute "x" ["k1"] freshStoredRandomText "DANGLING").1 =
      .ok ("StoreRandomText completed for DANGLING from <class Files>.",
        some [("data", .str "Random data: x"), ("entry_key", .str "k1"),
              ("process_uid", .str "StoreRandomText"),
              ("input_structure_uid", .str "file_table"),
              ("input_data_key", .str "DANGLING")]) ∧
    (storeRandomTextExecute "x" ["k1"] freshStoredRandomText "DANGLING").2.rows.length = 1 := by
  refine ⟨rfl, rfl, rfl⟩

/-- C10 (amended): the Processes that do read their input entry —
`FileSystemIntegration` and `RAMGenerateTags` (the latter when the output
store has no prior entry for the key, so execution reaches its input read) —
fail gracefully on a dangling input key: no exception, an error message with
a `None` payload, and no change to the output Store's entries or managed
copies.  `StoreRandomText` is the exception covered by the counterexample:
it ignores the input store and creates an entry regardless. -/
theorem dangling_input_key_returns_error_message (env : FsEnv) (draws : List String)
    (manual : ManualStore) (files ramTags : Table) (managed : List (String × String))
    (genTags : String → String) (inputDataKey : String)
    (hman : manualReadByEntryKey manual inputDataKey = none)
    (hram : readByInputKey ramTags inputDataKey = .ok none)
    (hfile : readByEntryKey files inputDataKey = .ok none) :
    fileSystemIntegrationExecute env draws manual files managed inputDataKey =
      (.ok ("Error in file_system_integration: No data found for key " ++
            inputDataKey ++ ".", none), files, managed) ∧
    ramGenerateTagsExecute genTags draws files ramTags inputDataKey =
      (.ok ("No matching file record found in database.", none), ramTags) := by
  constructor
  · simp only [fileSystemIntegrationExecute, hman]
  · simp only [ramGenerateTagsExecute, hram, hfile]

theorem dangling_input_key_returns_error_message_witness :
    fileSystemIntegrationExecute envPhoto ["k1"] [] freshFileTable [] "M9" =
      (.ok ("Error in file_system_integration: No data found for key M9.", none),
       freshFileTable, []) ∧
    ramGenerateTagsExecute (fun _ => "tags") ["k1"] freshFileTable
        freshRamGeneratedTags "M9" =
      (.ok ("No matching file record found in database.", none), freshRamGeneratedTags) :=
  dangling_input_key_returns_error_message envPhoto ["k1"] [] freshFileTable
    freshRamGeneratedTags [] (fun _ => "tags") "M9" (by rfl) (by rfl) (by rfl)

/-- A `stored_random_text_records` store already holding one entry produced
for input key `K` (fixture for concrete instantiations). -/
def storedRandomTextWithK : Table :=
  { columns := storedRandomTextRequired
    rows := [[("rowid", .int 1), ("entry_key", .str "k1"),
              ("process_uid", .str "StoreRandomText"),
              ("input_structure_uid", .str "file_table"),
              ("input_data_key", .str "K"), ("data", .str "Random data: x")]]
    nextRowid := 2 }

/-- C3 counterexample: `StoreRandomText` has `deterministic = False`, yet
with an output entry for input key `K` already present its `execute` does
not check `read_by_input_key` and does not skip: it returns a success
message with a non-`None` payload and creates a second entry for `K`. -/
theorem storeRandomText_deterministic_false_no_skip :
    storeRandomTextDeterministic = false ∧
    readByInputKey storedRandomTextWithK "K" =
      .ok (some [("rowid", .int 1), ("entry_key", .str "k1"),
                 ("process_uid", .str "StoreRandomText"),
                 ("input_structure_uid", .str "file_table"),
                 ("input_data_key", .str "K"), ("data", .str "Random data: x")]) ∧
    (storeRandomTextExecute "y" ["k2"] storedRandomTextWithK "K").1 =
      .ok ("StoreRandomText completed for K from <class Files>.",
        some [("data", .str "Random data: y"), ("entry_key", .str "k2"),
              ("process_uid", .str "StoreRandomText"),
              ("input_structure_uid", .str "file_table"),
              ("input_data_key", .str "K")]) ∧
    (storeRandomTextExecute "y" ["k2"] storedRandomTextWithK "K").2.rows.length = 2 := by
  refine ⟨rfl, rfl, rfl, rfl⟩

/-- On a store with the `stored_random_text_records` schema and a usable key
draw, `StoreRandomText.execute` always creates a new entry — in particular
also when the input key already has one. -/
theorem storeRandomTextExecute_creates (randomText : String) (draws : List String)
    (srt : Table) (inputDataKey k : String)
    (hcols : srt.columns = storedRandomTextRequired)
    (hkey : generateNewKey draws srt = some k) :
    ∃ d t', storeRandomTextExecute randomText draws srt inputDataKey =
      (.ok ("StoreRandomText completed for " ++ inputDataKey ++
            " from <class Files>.", some d), t') ∧
      t'.rows.length = srt.rows.length + 1 := by
  unfold storeRandomTextExecute createEntry
  rw [hkey]
  simp only
  rw [if_neg (by
    simp [missingFieldsOf, stampRow, setField, getField, storedRandomTextRequired, uidValue])]
  have hins : insertRecord srt
      (stampRow [("data", .str ("Random data: " ++ randomText))] k "StoreRandomText"
        (some "file_table") inputDataKey) = .ok
      { columns := srt.columns
        rows := srt.rows ++ [srt.columns.map (fun c =>
          (c, (getField (stampRow [("data", .str ("Random data: " ++ randomText))] k
            "StoreRandomText" (some "file_table") inputDataKey) c).getD
            (if c = "rowid" then .int srt.nextRowid else .null)))]
        nextRowid := srt.nextRowid + 1 } := by
    unfold insertRecord
    rw [if_pos (by
      intro x hx
      simp [rowKeys, stampRow, setField] at hx
      rcases hx with h | h | h | h | h <;> simp [h, hcols] <;> decide)]
  rw [hins]
  exact ⟨_, _, rfl, by simp⟩

/-- C3 (amended): the flag association is the reverse of the claim's.
`RAMGenerateTags` has `deterministic = true` and is the non-repeatable one:
its `execute` first checks `read_by_input_key` and, when an entry is
present, returns a skip message with a `None` payload and leaves the output
Store unchanged.  `StoreRandomText`, the Process with `deterministic =
false`, is the repeatable one: it performs no such check and creates a new
output entry even for an input key that already has one. -/
theorem deterministic_flag_association_inverted (genTags : String → String)
    (draws draws' : List String) (files ramTags srt : Table)
    (ramKey srtKey randomText k : String) (e e' : Row)
    (hram : readByInputKey ramTags ramKey = .ok (some e))
    (hsrtcols : srt.columns = storedRandomTextRequired)
    (hsrt : readByInputKey srt srtKey = .ok (some e'))
    (hkey : generateNewKey draws' srt = some k) :
    ramGenerateTagsDeterministic = true ∧
    ramGenerateTagsExecute genTags draws files ramTags ramKey =
      (.ok ("ram_generate_tags already executed for " ++ ramKey ++
            " from file_table. Skipping.", none), ramTags) ∧
    storeRandomTextDeterministic = false ∧
    ∃ d t', storeRandomTextExecute randomText draws' srt srtKey =
      (.ok ("StoreRandomText completed for " ++ srtKey ++
            " from <class Files>.", some d), t') ∧
      t'.rows.length = srt.rows.length + 1 := by
  refine ⟨rfl, ?_, rfl, storeRandomTextExecute_creates randomText draws' srt
    srtKey k hsrtcols hkey⟩
  unfold ramGenerateTagsExecute
  rw [hram]

theorem deterministic_flag_association_inverted_witness :
    ramGenerateTagsDeterministic = true ∧
    ramGenerateTagsExecute (fun _ => "tags") ["k2"] freshFileTable ramTagsWithE1 "E1" =
      (.ok ("ram_generate_tags already executed for E1 from file_table. Skipping.",
            none), ramTagsWithE1) ∧
    storeRandomTextDeterministic = false ∧
    ∃ d t', storeRandomTextExecute "y" ["k2"] storedRandomTextWithK "K" =
      (.ok ("StoreRandomText completed for K from <class Files>.", some d), t') ∧
      t'.rows.length = storedRandomTextWithK.rows.length + 1 :=
  deterministic_flag_association_inverted (fun _ => "tags") ["k2"] ["k2"]
    freshFileTable ramTagsWithE1 storedRandomTextWithK "E1" "K" "y" "k2" _ _
    (by rfl) (by rfl) (by rfl) (by rfl)

/-- Field values of the materialised row as `SELECT *` returns it. -/
theorem getField_materializedRow (t : Table) (d : Row) (f : String) :
    getField (materializedRow t d) f =
      if f ∈ t.columns then
        some ((getField d f).getD (if f = "rowid" then .int t.nextRowid else .null))
      else none :=
  getField_map_cols t.columns _ f

/-- C4 counterexample: after a concrete `create_entry` on the
`ram_generated_tags` store with payload `{"tags": "cat"}`, the record
`read_by_entry_key` returns also carries the `entry_key` field (and the SQL
`rowid`), neither of which is a given payload field or one of the three
provenance fields — so the record does not consist *exactly* of the payload
plus the three provenance fields. -/
theorem createEntry_read_back_extra_fields :
    readByEntryKey (createEntry ramGeneratedTagsRequired ["k1"] freshRamGeneratedTags
        [("tags", .str "cat")] "ram_generate_tags" (some "file_table") "E1").2 "k1" =
      .ok (some [("rowid", .int 1), ("entry_key", .str "k1"),
                 ("process_uid", .str "ram_generate_tags"),
                 ("input_structure_uid", .str "file_table"),
                 ("input_data_key", .str "E1"), ("tags", .str "cat")]) ∧
    getField ([("tags", .str "cat")] : Row) "entry_key" = none ∧
    getField ([("tags", .str "cat")] : Row) "rowid" = none ∧
    "entry_key" ∉ ["process_uid", "input_structure_uid", "input_data_key"] ∧
    "rowid" ∉ ["process_uid", "input_structure_uid", "input_data_key"] := by
  refine ⟨rfl, rfl, rfl, by decide, by decide⟩

/-- C4 (amended): round-trip.  A successful
`create_entry(data, process, input_store, input_key)` returns a key `E` such
that `read_by_entry_key(E)` returns a record carrying every given payload
field unmodified and the three provenance fields (`process_uid` = the
process's UID, `input_structure_uid` = the input Store's UID or NULL,
`input_data_key` = the given input key) — plus the generated `entry_key`
field (equal to `E`) and the table's auto-assigned `rowid` column, which the
claim's "exactly" overlooked. -/
theorem createEntry_round_trip (required draws : List String) (t : Table) (data : Row)
    (processUid : String) (inputStructureUid : Option String) (inputDataKey : String)
    (k : String) (d : Row) (t' : Table)
    (hok : createEntry required draws t data processUid inputStructureUid inputDataKey =
      (.ok (k, d), t')) :
    ∃ r, readByEntryKey t' k = .ok (some r) ∧
      (∀ f v, f ∉ ["rowid", "entry_key", "process_uid", "input_structure_uid", "input_data_key"] →
        getField data f = some v → getField r f = some v) ∧
      getField r "process_uid" = some (.str processUid) ∧
      getField r "input_structure_uid" = some (uidValue inputStructureUid) ∧
      getField r "input_data_key" = some (.str inputDataKey) ∧
      getField r "entry_key" = some (.str k) ∧
      (getField data "rowid" = none → "rowid" ∈ t.columns →
        getField r "rowid" = some (.int t.nextRowid)) := by
  obtain ⟨hg, hd, hi⟩ := createEntry_ok hok
  obtain ⟨hcols, hrows, _, hkeys⟩ := insertRecord_ok _ _ _ hi
  obtain ⟨hek, hpu, hisu, hidk, hrest⟩ :=
    getField_stampRow data k processUid inputStructureUid inputDataKey
  rw [← hd] at hek hpu hisu hidk hrest
  have hmemOf : ∀ f v, getField d f = some v → f ∈ t.columns := fun f v hf =>
    hkeys f (getField_some_mem_rowKeys d f v hf)
  refine ⟨materializedRow t d, createEntry_readBack hok, ?_, ?_, ?_, ?_, ?_, ?_⟩
  · intro f v hf hval
    have hdf : getField d f = some v := by
      rw [hrest f (by intro hmem; apply hf; simp only [List.mem_cons] at hmem ⊢; tauto)]
      exact hval
    rw [getField_materializedRow, if_pos (hmemOf f v hdf), hdf]
    rfl
  · rw [getField_materializedRow, if_pos (hmemOf _ _ hpu), hpu]
    rfl
  · rw [getField_materializedRow, if_pos (hmemOf _ _ hisu), hisu]
    rfl
  · rw [getField_materializedRow, if_pos (hmemOf _ _ hidk), hidk]
    rfl
  · rw [getField_materializedRow, if_pos (hmemOf _ _ hek), hek]
    rfl
  · intro hnorow hmem
    have hdrow : getField d "rowid" = none := by
      rw [hrest "rowid" (by decide)]
      exact hnorow
    rw [getField_materializedRow, if_pos hmem, hdrow]
    rfl

theorem createEntry_round_trip_witness :
    ∃ r, readByEntryKey (createEntry storedRandomTextRequired ["w1"] freshStoredRandomText
        [("data", .str "Random data: z")] "StoreRandomText" (some "file_table") "E7").2 "w1" =
      .ok (some r) ∧
      (∀ f v, f ∉ ["rowid", "entry_key", "process_uid", "input_structure_uid", "input_data_key"] →
        getField ([("data", .str "Random data: z")] : Row) f = some v → getField r f = some v) ∧
      getField r "process_uid" = some (.str "StoreRandomText") ∧
      getField r "input_structure_uid" = some (uidValue (some "file_table")) ∧
      getField r "input_data_key" = some (.str "E7") ∧
      getField r "entry_key" = some (.str "w1") ∧
      (getField ([("data", .str "Random data: z")] : Row) "rowid" = none →
        "rowid" ∈ freshStoredRandomText.columns →
        getField r "rowid" = some (.int freshStoredRandomText.nextRowid)) :=
  createEntry_round_trip storedRandomTextRequired ["w1"] freshStoredRandomText
    [("data", .str "Random data: z")] "StoreRandomText" (some "file_table") "E7"
    "w1" _ _ (by rfl)

/-- C5: entry-key uniqueness.  A successful `create_entry` call generates a
key that `_generate_new_key` checked against the store (re-sampling on
collision), so the new key differs from every entry key already present, the
store's entry-key column extends by exactly that key, and pairwise
distinctness of entry keys is preserved — creating N entries in one Store
yields N pairwise-distinct entry keys. -/
theorem createEntry_entry_key_unique (required draws : List String) (t : Table)
    (data : Row) (processUid : String) (inputStructureUid : Option String)
    (inputDataKey : String) (k : String) (d : Row) (t' : Table)
    (hok : createEntry required draws t data processUid inputStructureUid inputDataKey =
      (.ok (k, d), t')) :
    Value.str k ∉ entryKeys t ∧
    entryKeys t' = entryKeys t ++ [Value.str k] ∧
    ((entryKeys t).Nodup → (entryKeys t').Nodup) := by
  obtain ⟨hg, hd, hi⟩ := createEntry_ok hok
  obtain ⟨hcols, hrows, _, _⟩ := insertRecord_ok _ _ _ hi
  have hfresh := generateNewKey_some _ _ _ hg
  obtain ⟨hmem, hfind⟩ := tableRead_ok _ _ _ _ hfresh
  have hnotin : Value.str k ∉ entryKeys t := by
    intro hin
    obtain ⟨r, hr, hrk⟩ := List.mem_filterMap.mp hin
    have := List.find?_eq_none.mp hfind r hr
    simp [hrk] at this
  have hekd : getField (materializedRow t d) "entry_key" = some (.str k) := by
    rw [getField_materializedRow, if_pos hmem, hd,
      (getField_stampRow data k processUid inputStructureUid inputDataKey).1]
    rfl
  have happ : entryKeys t' = entryKeys t ++ [Value.str k] := by
    unfold entryKeys
    rw [hrows, List.filterMap_append]
    congr 1
    show List.filterMap _ [materializedRow t d] = _
    simp [List.filterMap, hekd]
  refine ⟨hnotin, happ, fun hnd => ?_⟩
  rw [happ]
  simp [List.nodup_append, hnd, hnotin]

theorem createEntry_entry_key_unique_witness :
    Value.str "k1" ∉ entryKeys ramTagsWithE1 ∧
    entryKeys (createEntry ramGeneratedTagsRequired ["k1"] ramTagsWithE1
        [("tags", .str "dog")] "ram_generate_tags" (some "file_table") "E2").2 =
      entryKeys ramTagsWithE1 ++ [Value.str "k1"] ∧
    ((entryKeys ramTagsWithE1).Nodup →
      (entryKeys (createEntry ramGeneratedTagsRequired ["k1"] ramTagsWithE1
        [("tags", .str "dog")] "ram_generate_tags" (some "file_table") "E2").2).Nodup) :=
  createEntry_entry_key_unique ramGeneratedTagsRequired ["k1"] ramTagsWithE1
    [("tags", .str "dog")] "ram_generate_tags" (some "file_table") "E2" "k1" _ _ (by rfl)

/-- The producer/consumer edge at the Prop level, restricted to the input
set: `p` and `q` are given processes and `p.output == q.input` with `p`, `q`
distinct objects. -/
def EdgeIn (ps : List Proc) (p q : Proc) : Prop :=
  p ∈ ps ∧ q ∈ ps ∧ procEdge p q = true

/-- Acyclicity of the producer/consumer relation over the given processes:
no process reaches itself through a nonempty chain of edges. -/
def AcyclicProcs (ps : List Proc) : Prop :=
  ∀ p, ¬ Relation.TransGen (EdgeIn ps) p p

/-- The producers of `n` not yet dequeued: what `in_degree[n]` counts at any
point of the main loop. -/
def predsOutside (ps result : List Proc) (n : Proc) : List Proc :=
  ps.filter (fun p => procEdge p n && !(decide (p ∈ result)))

theorem foldl_decrStep (l : List Proc) (hnd : l.Nodup) (deg : Proc → Int)
    (out : List Proc) :
    (l.foldl decrStep (deg, out)).1 = (fun m => if m ∈ l then deg m - 1 else deg m) ∧
    (l.foldl decrStep (deg, out)).2 =
      out ++ l.filter (fun n => decide (deg n - 1 = 0)) := by
  induction l generalizing deg out with
  | nil => simp
  | cons a rest ih =>
    have ha : a ∉ rest := (List.nodup_cons.mp hnd).1
    have hnd' : rest.Nodup := (List.nodup_cons.mp hnd).2
    simp only [List.foldl_cons]
    obtain ⟨h1, h2⟩ := ih hnd' (decrStep (deg, out) a).1 (decrStep (deg, out) a).2
    constructor
    · rw [h1]
      funext m
      by_cases hm : m ∈ rest
      · have hma : m ≠ a := fun he => ha (he ▸ hm)
        simp [decrStep, hm, hma, List.mem_cons]
      · by_cases hma : m = a
        · subst hma
          simp [decrStep, hm, ha]
        · simp [decrStep, hm, hma, List.mem_cons]
    · rw [h2]
      have hfilter : rest.filter (fun n => decide ((decrStep (deg, out) a).1 n - 1 = 0)) =
          rest.filter (fun n => decide (deg n - 1 = 0)) := by
        apply List.filter_congr
        intro n hn
        have hna : n ≠ a := fun he => ha (he ▸ hn)
        simp [decrStep, hna]
      rw [hfilter]
      by_cases hz : deg a - 1 = 0
      · simp [decrStep, hz, List.filter_cons]
      · simp [decrStep, hz, List.filter_cons]

theorem decrementPass_deg (l : List Proc) (hnd : l.Nodup) (deg : Proc → Int) (m : Proc) :
    (decrementPass l deg).1 m = if m ∈ l then deg m - 1 else deg m := by
  unfold decrementPass
  rw [(foldl_decrStep l hnd deg []).1]

theorem decrementPass_enq (l : List Proc) (hnd : l.Nodup) (deg : Proc → Int) :
    (decrementPass l deg).2 = l.filter (fun n => decide (deg n - 1 = 0)) := by
  unfold decrementPass
  rw [(foldl_decrStep l hnd deg []).2]
  rfl

/-- Removing one element from a Boolean filter of a duplicate-free list:
the count drops by exactly one when the element passes the filter. -/
theorem filter_and_ne_length (ps : List Proc) (hnd : ps.Nodup) (P : Proc → Bool)
    (c : Proc) (hc : c ∈ ps) (hP : P c = true) :
    (ps.filter (fun p => P p && !(decide (p = c)))).length + 1 = (ps.filter P).length := by
  induction ps with
  | nil => simp at hc
  | cons a rest ih =>
    have ha : a ∉ rest := (List.nodup_cons.mp hnd).1
    have hnd' : rest.Nodup := (List.nodup_cons.mp hnd).2
    by_cases hca : c = a
    · subst hca
      have hrest : rest.filter (fun p => P p && !(decide (p = c))) = rest.filter P := by
        apply List.filter_congr
        intro p hp
        have hpc : ¬ (p = c) := fun he => ha (he ▸ hp)
        simp [hpc]
      simp [List.filter_cons, hP, hrest]
    · have hcr : c ∈ rest := by
        rcases List.mem_cons.mp hc with h | h
        · exact absurd h hca
        · exact h
      have hih := ih hnd' hcr
      by_cases hPa : P a = true
      · have hac : ¬ (a = c) := fun he => hca he.symm
        have hQa : (P a && !(decide (a = c))) = true := by
          simp [hPa, hac]
        rw [List.filter_cons, List.filter_cons, if_pos hQa, if_pos hPa]
        simp only [List.length_cons]
        omega
      · have hPa' : P a = false := by simpa using hPa
        have hQa : (P a && !(decide (a = c))) = false := by simp [hPa']
        rw [List.filter_cons, List.filter_cons, if_neg (by simp [hQa]), if_neg (by simp [hPa'])]
        exact hih

theorem filter_and_ne_of_not (ps : List Proc) (P : Proc → Bool) (c : Proc)
    (hP : P c = false) :
    ps.filter (fun p => P p && !(decide (p = c))) = ps.filter P := by
  apply List.filter_congr
  intro p _
  by_cases hpc : p = c
  · subst hpc; simp [hP]
  · simp [hpc]

theorem adjacencyOf_mem (ps : List Proc) (c n : Proc) :
    n ∈ adjacencyOf ps c ↔ n ∈ ps ∧ procEdge c n = true := by
  simp [adjacencyOf, List.mem_filter]

theorem predsOutside_mem (ps result : List Proc) (n p : Proc) :
    p ∈ predsOutside ps result n ↔ p ∈ ps ∧ procEdge p n = true ∧ p ∉ result := by
  simp [predsOutside, List.mem_filter, and_assoc]

/-- The loop invariant of `sort_processes`' Kahn loop, tying the queue, the
in-degree map and the emitted prefix together:
- emitted and queued processes come from the input, without duplicates or
  overlap;
- `in_degree[n]` counts exactly the producers of `n` not yet emitted;
- the queue holds exactly the unemitted processes of in-degree zero;
- every emitted process appears after all its producers. -/
structure KahnInv (ps queue : List Proc) (deg : Proc → Int) (result : List Proc) : Prop where
  sub_r : ∀ p ∈ result, p ∈ ps
  sub_q : ∀ p ∈ queue, p ∈ ps
  nd_r : result.Nodup
  nd_q : queue.Nodup
  disj : ∀ p ∈ queue, p ∉ result
  deg_eq : ∀ n ∈ ps, deg n = ((predsOutside ps result n).length : Int)
  queue_iff : ∀ n ∈ ps, n ∉ result → (deg n = 0 ↔ n ∈ queue)
  ordered : ∀ p n, p ∈ ps → n ∈ result → procEdge p n = true →
    p ∈ result ∧ result.indexOf p < result.indexOf n

theorem KahnInv.deg_zero_of_mem_result {ps queue : List Proc} {deg : Proc → Int}
    {result : List Proc} (inv : KahnInv ps queue deg result) {n : Proc}
    (hn : n ∈ result) : deg n = 0 := by
  rw [inv.deg_eq n (inv.sub_r n hn)]
  have hempty : predsOutside ps result n = [] := by
    by_contra hne
    obtain ⟨p, hp⟩ := List.exists_mem_of_ne_nil _ hne
    rw [predsOutside_mem] at hp
    exact hp.2.2 ((inv.ordered p n hp.1 hn hp.2.1).1)
  rw [hempty]
  rfl

theorem KahnInv.deg_zero_of_mem_queue {ps queue : List Proc} {deg : Proc → Int}
    {result : List Proc} (inv : KahnInv ps queue deg result) {n : Proc}
    (hn : n ∈ queue) : deg n = 0 :=
  (inv.queue_iff n (inv.sub_q n hn) (inv.disj n hn)).mpr hn

theorem KahnInv.step {ps : List Proc} (hnd : ps.Nodup) {current : Proc}
    {queue : List Proc} {deg : Proc → Int} {result : List Proc}
    (inv : KahnInv ps (current :: queue) deg result) :
    KahnInv ps (queue ++ (decrementPass (adjacencyOf ps current) deg).2)
      (decrementPass (adjacencyOf ps current) deg).1 (result ++ [current]) := by
  have hndA : (adjacencyOf ps current).Nodup := hnd.filter _
  have hdeg' : ∀ m, (decrementPass (adjacencyOf ps current) deg).1 m =
      if m ∈ adjacencyOf ps current then deg m - 1 else deg m :=
    decrementPass_deg _ hndA deg
  have henq := decrementPass_enq _ hndA deg
  have hcps : current ∈ ps := inv.sub_q current (by simp)
  have hcnr : current ∉ result := inv.disj current (by simp)
  have hc0 : deg current = 0 := inv.deg_zero_of_mem_queue (by simp)
  have hcnq : current ∉ queue := (List.nodup_cons.mp inv.nd_q).1
  have hndq : queue.Nodup := (List.nodup_cons.mp inv.nd_q).2
  have henq_mem : ∀ n, n ∈ (decrementPass (adjacencyOf ps current) deg).2 ↔
      n ∈ adjacencyOf ps current ∧ deg n = 1 := by
    intro n
    rw [henq, List.mem_filter]
    simp only [decide_eq_true_eq]
    constructor
    · rintro ⟨h1, h2⟩; exact ⟨h1, by omega⟩
    · rintro ⟨h1, h2⟩; exact ⟨h1, by omega⟩
  have hpreds : ∀ p, p ∈ ps → procEdge p current = true → p ∈ result := by
    intro p hp he
    by_contra hnr
    have hmem : p ∈ predsOutside ps result current :=
      (predsOutside_mem _ _ _ _).mpr ⟨hp, he, hnr⟩
    have hd := inv.deg_eq current hcps
    rw [hc0] at hd
    have hlen : (predsOutside ps result current).length = 0 := by exact_mod_cast hd.symm
    rw [List.length_eq_zero.mp hlen] at hmem
    simp at hmem
  refine ⟨?_, ?_, ?_, ?_, ?_, ?_, ?_, ?_⟩
  · intro p hp
    rcases List.mem_append.mp hp with h | h
    · exact inv.sub_r p h
    · simp at h; subst h; exact hcps
  · intro p hp
    rcases List.mem_append.mp hp with h | h
    · exact inv.sub_q p (List.mem_cons_of_mem _ h)
    · exact ((adjacencyOf_mem ps current p).mp ((henq_mem p).mp h).1).1
  · rw [List.nodup_append]
    exact ⟨inv.nd_r, List.nodup_singleton _, by
      intro a ha hmem
      simp at hmem
      subst hmem
      exact hcnr ha⟩
  · rw [List.nodup_append]
    refine ⟨hndq, henq ▸ hndA.filter _, ?_⟩
    intro a ha hmem
    have h1 : deg a = 0 := inv.deg_zero_of_mem_queue (List.mem_cons_of_mem _ ha)
    have h2 : deg a = 1 := ((henq_mem a).mp hmem).2
    omega
  · intro p hp hpr
    rcases List.mem_append.mp hp with h | h
    · rcases List.mem_append.mp hpr with h' | h'
      · exact inv.disj p (List.mem_cons_of_mem _ h) h'
      · simp at h'; subst h'; exact hcnq h
    · have h2 : deg p = 1 := ((henq_mem p).mp h).2
      rcases List.mem_append.mp hpr with h' | h'
      · have := inv.deg_zero_of_mem_result h'
        omega
      · simp at h'; subst h'; omega
  · intro n hn
    rw [hdeg']
    have hsplit : predsOutside ps (result ++ [current]) n =
        ps.filter (fun p => (procEdge p n && !(decide (p ∈ result))) && !(decide (p = current))) := by
      unfold predsOutside
      apply List.filter_congr
      intro p _
      by_cases h1 : p ∈ result <;> by_cases h2 : p = current <;>
        simp [h1, h2, List.mem_append]
    rw [hsplit]
    by_cases hA : n ∈ adjacencyOf ps current
    · have he : procEdge current n = true := ((adjacencyOf_mem ps current n).mp hA).2
      have hPc : (procEdge current n && !(decide (current ∈ result))) = true := by
        simp [he, hcnr]
      have hcount : (ps.filter (fun p =>
            (procEdge p n && !(decide (p ∈ result))) && !(decide (p = current)))).length + 1 =
          (ps.filter (fun p => procEdge p n && !(decide (p ∈ result)))).length :=
        filter_and_ne_length ps hnd
          (fun p => procEdge p n && !(decide (p ∈ result))) current hcps hPc
      have hd : deg n =
          ((ps.filter (fun p => procEdge p n && !(decide (p ∈ result)))).length : Int) :=
        inv.deg_eq n hn
      rw [if_pos hA, hd]
      omega
    · have he : procEdge current n = false := by
        by_contra hne
        exact hA ((adjacencyOf_mem ps current n).mpr ⟨hn, by simpa using hne⟩)
      have hPc : (procEdge current n && !(decide (current ∈ result))) = false := by
        simp [he]
      rw [filter_and_ne_of_not ps _ current hPc, if_neg hA]
      exact inv.deg_eq n hn
  · intro n hn hnr
    have hnres : n ∉ result := fun h => hnr (List.mem_append.mpr (Or.inl h))
    have hnc : n ≠ current := fun h => hnr (List.mem_append.mpr (Or.inr (by simp [h])))
    rw [hdeg']
    constructor
    · intro h0
      by_cases hA : n ∈ adjacencyOf ps current
      · rw [if_pos hA] at h0
        exact List.mem_append.mpr (Or.inr ((henq_mem n).mpr ⟨hA, by omega⟩))
      · rw [if_neg hA] at h0
        have := (inv.queue_iff n hn hnres).mp h0
        rcases List.mem_cons.mp this with h | h
        · exact absurd h hnc
        · exact List.mem_append.mpr (Or.inl h)
    · intro hq
      rcases List.mem_append.mp hq with h | h
      · have h0 : deg n = 0 := inv.deg_zero_of_mem_queue (List.mem_cons_of_mem _ h)
        have hA : n ∉ adjacencyOf ps current := by
          intro hA
          have he : procEdge current n = true := ((adjacencyOf_mem ps current n).mp hA).2
          have hmem : current ∈ predsOutside ps result n :=
            (predsOutside_mem _ _ _ _).mpr ⟨hcps, he, hcnr⟩
          have hd := inv.deg_eq n hn
          rw [h0] at hd
          have hlen : (predsOutside ps result n).length = 0 := by exact_mod_cast hd.symm
          rw [List.length_eq_zero.mp hlen] at hmem
          simp at hmem
        rw [if_neg hA]
        exact h0
      · obtain ⟨hA, h1⟩ := (henq_mem n).mp h
        rw [if_pos hA]
        omega
  · intro p n hp hnR he
    rcases List.mem_append.mp hnR with h | h
    · obtain ⟨hpR, hlt⟩ := inv.ordered p n hp h he
      refine ⟨List.mem_append.mpr (Or.inl hpR), ?_⟩
      rw [List.indexOf_append_of_mem hpR, List.indexOf_append_of_mem h]
      exact hlt
    · simp only [List.mem_singleton] at h
      subst h
      have hpR : p ∈ result := hpreds p hp he
      refine ⟨List.mem_append.mpr (Or.inl hpR), ?_⟩
      rw [List.indexOf_append_of_mem hpR, List.indexOf_append_of_not_mem hcnr]
      have h1 : result.indexOf p < result.length := List.indexOf_lt_length.mpr hpR
      simp only [List.indexOf_cons_self]
      omega

/-- If every member of a nonempty set of processes has a producer within the
set, the producer/consumer relation has a cycle (iterate the producer choice
and apply the pigeonhole principle). -/
theorem exists_cycle_of_all_have_pred (ps S : List Proc) (hS : S ≠ [])
    (hsub : ∀ n ∈ S, n ∈ ps)
    (hpred : ∀ n ∈ S, ∃ p, p ∈ S ∧ procEdge p n = true) :
    ∃ n, Relation.TransGen (EdgeIn ps) n n := by
  classical
  let f : Proc → Proc := fun n =>
    if h : ∃ p, p ∈ S ∧ procEdge p n = true then h.choose else n
  have hf : ∀ n ∈ S, f n ∈ S ∧ procEdge (f n) n = true := by
    intro n hn
    have h := hpred n hn
    simp only [f, dif_pos h]
    exact h.choose_spec
  obtain ⟨n0, hn0⟩ := List.exists_mem_of_ne_nil S hS
  let g : ℕ → Proc := fun k => f^[k] n0
  have hg : ∀ k, g k ∈ S := by
    intro k
    induction k with
    | zero => exact hn0
    | succ k ih =>
      show f^[k + 1] n0 ∈ S
      rw [Function.iterate_succ_apply']
      exact (hf _ ih).1
  have hedge : ∀ k, EdgeIn ps (g (k + 1)) (g k) := by
    intro k
    have h2 := hf _ (hg k)
    refine ⟨hsub _ ?_, hsub _ (hg k), ?_⟩
    · show f^[k + 1] n0 ∈ S
      rw [Function.iterate_succ_apply']
      exact h2.1
    · show procEdge (f^[k + 1] n0) (f^[k] n0) = true
      rw [Function.iterate_succ_apply']
      exact h2.2
  have hpath : ∀ d k, Relation.TransGen (EdgeIn ps) (g (k + (d + 1))) (g k) := by
    intro d
    induction d with
    | zero => intro k; exact Relation.TransGen.single (hedge k)
    | succ d ih =>
      intro k
      have hlast : EdgeIn ps (g (k + (d + 2))) (g (k + (d + 1))) := by
        have := hedge (k + (d + 1))
        have harith : k + (d + 1) + 1 = k + (d + 2) := by omega
        rwa [harith] at this
      exact Relation.TransGen.head hlast (ih k)
  have hmaps : ∀ k ∈ Finset.range (S.length + 1), g k ∈ S.toFinset :=
    fun k _ => List.mem_toFinset.mpr (hg k)
  have hcard : S.toFinset.card < (Finset.range (S.length + 1)).card := by
    rw [Finset.card_range]
    exact Nat.lt_succ_of_le S.toFinset_card_le
  obtain ⟨i, _, j, _, hij, hgij⟩ :=
    Finset.exists_ne_map_eq_of_card_lt_of_maps_to hcard hmaps
  rcases Nat.lt_or_ge i j with hlt | hge
  · obtain ⟨d, rfl⟩ : ∃ d, j = i + (d + 1) := ⟨j - i - 1, by omega⟩
    exact ⟨g i, hgij ▸ hpath d i⟩
  · have hlt : j < i := by omega
    obtain ⟨d, rfl⟩ : ∃ d, i = j + (d + 1) := ⟨i - j - 1, by omega⟩
    exact ⟨g j, hgij ▸ hpath d j⟩

/-- A duplicate-free sublist of `ps` at least as long as `ps` contains every
member of `ps`. -/
theorem mem_of_nodup_subset_length (ps l : List Proc) (hnd : l.Nodup)
    (hndps : ps.Nodup) (hsub : ∀ p ∈ l, p ∈ ps) (hlen : ps.length ≤ l.length) :
    ∀ p ∈ ps, p ∈ l := by
  have hsubF : l.toFinset ⊆ ps.toFinset := by
    intro x hx
    exact List.mem_toFinset.mpr (hsub x (List.mem_toFinset.mp hx))
  have hcard : ps.toFinset.card ≤ l.toFinset.card := by
    rw [List.toFinset_card_of_nodup hnd, List.toFinset_card_of_nodup hndps]
    exact hlen
  have heq := Finset.eq_of_subset_of_card_le hsubF hcard
  intro p hp
  exact List.mem_toFinset.mp (heq ▸ List.mem_toFinset.mpr hp)

theorem kahnLoop_spec (ps : List Proc) (hnd : ps.Nodup) :
    ∀ (fuel : Nat) (queue : List Proc) (deg : Proc → Int) (result : List Proc),
    KahnInv ps queue deg result →
    ps.length ≤ fuel + result.length →
    (kahnLoop (adjacencyOf ps) fuel queue deg result).Nodup ∧
    (∀ p ∈ kahnLoop (adjacencyOf ps) fuel queue deg result, p ∈ ps) ∧
    (∀ p n, p ∈ ps → n ∈ kahnLoop (adjacencyOf ps) fuel queue deg result →
      procEdge p n = true →
      p ∈ kahnLoop (adjacencyOf ps) fuel queue deg result ∧
      (kahnLoop (adjacencyOf ps) fuel queue deg result).indexOf p <
        (kahnLoop (adjacencyOf ps) fuel queue deg result).indexOf n) ∧
    (AcyclicProcs ps → ∀ p ∈ ps, p ∈ kahnLoop (adjacencyOf ps) fuel queue deg result) := by
  intro fuel
  induction fuel with
  | zero =>
    intro queue deg result inv hlen
    simp only [kahnLoop]
    refine ⟨inv.nd_r, inv.sub_r, fun p n hp hn he => inv.ordered p n hp hn he, ?_⟩
    intro _ p hp
    exact mem_of_nodup_subset_length ps result inv.nd_r hnd inv.sub_r
      (by omega) p hp
  | succ fuel ih =>
    intro queue deg result inv hlen
    cases queue with
    | nil =>
      simp only [kahnLoop]
      refine ⟨inv.nd_r, inv.sub_r, fun p n hp hn he => inv.ordered p n hp hn he, ?_⟩
      intro hacyc p hp
      by_contra hnot
      have hSne : ps.filter (fun n => !(decide (n ∈ result))) ≠ [] := by
        intro hnil
        have hmem : p ∈ ps.filter (fun n => !(decide (n ∈ result))) :=
          List.mem_filter.mpr ⟨hp, by simpa using hnot⟩
        rw [hnil] at hmem
        simp at hmem
      have hSsub : ∀ n ∈ ps.filter (fun n => !(decide (n ∈ result))), n ∈ ps :=
        fun n hn => (List.mem_filter.mp hn).1
      have hSpred : ∀ n ∈ ps.filter (fun n => !(decide (n ∈ result))),
          ∃ q, q ∈ ps.filter (fun n => !(decide (n ∈ result))) ∧ procEdge q n = true := by
        intro n hn
        obtain ⟨hnps, hnr'⟩ := List.mem_filter.mp hn
        have hnr : n ∉ result := by simpa using hnr'
        have hdeg : deg n ≠ 0 := by
          intro h0
          have := (inv.queue_iff n hnps hnr).mp h0
          simp at this
        have hne : predsOutside ps result n ≠ [] := by
          intro hnil
          apply hdeg
          rw [inv.deg_eq n hnps, hnil]
          rfl
        obtain ⟨q, hq⟩ := List.exists_mem_of_ne_nil _ hne
        rw [predsOutside_mem] at hq
        exact ⟨q, List.mem_filter.mpr ⟨hq.1, by simpa using hq.2.2⟩, hq.2.1⟩
      obtain ⟨n, hcyc⟩ := exists_cycle_of_all_have_pred ps _ hSne hSsub hSpred
      exact hacyc n hcyc
    | cons current queue =>
      simp only [kahnLoop]
      have inv' := inv.step hnd
      have hlen' : ps.length ≤ fuel + (result ++ [current]).length := by
        simp only [List.length_append, List.length_singleton]
        omega
      exact ih _ _ _ inv' hlen'

/-- A process with no outgoing producer/consumer edge starts no chain. -/
theorem no_transGen_of_no_out (ps : List Proc) (x : Proc)
    (h : ∀ y, ¬ EdgeIn ps x y) : ∀ z, ¬ Relation.TransGen (EdgeIn ps) x z := by
  intro z htg
  induction htg with
  | single h' => exact h _ h'
  | tail _ _ ih => exact ih

/-- The producer `A` and consumer `B` of the spec's scheduling scenario:
`A.output = S = B.input` and no other edges. -/
def procA : Proc := ⟨"A", "R", "S"⟩

def procB : Proc := ⟨"B", "S", "T"⟩

/-- C8: scheduler order.  For a duplicate-free set of Processes whose
producer/consumer relation is acyclic, `sort_processes` returns a list
containing exactly the input Processes, in which every producer precedes
each of its consumers; in particular, on the two-process scenario it
returns `[A, B]` whichever way the Python set enumerates `{B, A}`. -/
theorem sortProcesses_topological (ps : List Proc) (hnd : ps.Nodup)
    (hacyc : AcyclicProcs ps) :
    (∀ p, p ∈ sortProcesses ps ↔ p ∈ ps) ∧
    (∀ p q, p ∈ ps → q ∈ ps → procEdge p q = true →
      (sortProcesses ps).indexOf p < (sortProcesses ps).indexOf q) ∧
    sortProcesses [procB, procA] = [procA, procB] ∧
    sortProcesses [procA, procB] = [procA, procB] := by
  have inv0 : KahnInv ps (ps.filter (fun p => inDegreeOf ps p == 0)) (inDegreeOf ps) [] := by
    refine ⟨?_, ?_, List.nodup_nil, hnd.filter _, ?_, ?_, ?_, ?_⟩
    · intro p hp
      exact absurd hp (List.not_mem_nil p)
    · intro p hp
      exact (List.mem_filter.mp hp).1
    · intro p _ hp
      exact absurd hp (List.not_mem_nil p)
    · intro n _
      have hcongr : predsOutside ps [] n = ps.filter (fun q => procEdge q n) := by
        unfold predsOutside
        apply List.filter_congr
        intro p _
        simp
      rw [hcongr]
      rfl
    · intro n hn _
      unfold inDegreeOf
      constructor
      · intro h0
        refine List.mem_filter.mpr ⟨hn, ?_⟩
        simp only [beq_iff_eq]
        exact h0
      · intro hmem
        have := (List.mem_filter.mp hmem).2
        simp only [beq_iff_eq] at this
        exact this
    · intro p n _ hn _
      exact absurd hn (List.not_mem_nil n)
  obtain ⟨hndF, hsubF, hordF, hcomp⟩ := kahnLoop_spec ps hnd ps.length
    (ps.filter (fun p => inDegreeOf ps p == 0)) (inDegreeOf ps) [] inv0 (by simp)
  have hall := hcomp hacyc
  have hrem : ps.filter (fun p =>
      !((kahnLoop (adjacencyOf ps) ps.length
        (ps.filter (fun p => inDegreeOf ps p == 0)) (inDegreeOf ps) []).contains p)) = [] := by
    rw [List.filter_eq_nil_iff]
    intro a ha
    have hac : (kahnLoop (adjacencyOf ps) ps.length
        (ps.filter (fun p => inDegreeOf ps p == 0)) (inDegreeOf ps) []).contains a = true :=
      List.elem_eq_true_of_mem (hall a ha)
    rw [hac]
    simp
  have hsort : sortProcesses ps = kahnLoop (adjacencyOf ps) ps.length
      (ps.filter (fun p => inDegreeOf ps p == 0)) (inDegreeOf ps) [] := by
    show (kahnLoop (adjacencyOf ps) ps.length
        (ps.filter (fun p => inDegreeOf ps p == 0)) (inDegreeOf ps) []) ++
      ps.filter (fun p =>
        !((kahnLoop (adjacencyOf ps) ps.length
          (ps.filter (fun p => inDegreeOf ps p == 0)) (inDegreeOf ps) []).contains p)) = _
    rw [hrem, List.append_nil]
  refine ⟨?_, ?_, by rfl, by rfl⟩
  · intro p
    rw [hsort]
    exact ⟨fun h => hsubF p h, fun h => hall p h⟩
  · intro p q hp hq he
    rw [hsort]
    exact (hordF p q hp (hall q hq) he).2

theorem transGen_head_cases {α : Type} {r : α → α → Prop} {a b : α}
    (h : Relation.TransGen r a b) :
    r a b ∨ ∃ c, r a c ∧ Relation.TransGen r c b := by
  induction h with
  | single h => exact Or.inl h
  | tail _ hbc ih =>
    rcases ih with h | ⟨c, hac, hcb⟩
    · exact Or.inr ⟨_, h, Relation.TransGen.single hbc⟩
    · exact Or.inr ⟨c, hac, hcb.tail hbc⟩

theorem sortProcesses_topological_witness :
    (∀ p, p ∈ sortProcesses [procB, procA] ↔ p ∈ [procB, procA]) ∧
    (∀ p q, p ∈ [procB, procA] → q ∈ [procB, procA] → procEdge p q = true →
      (sortProcesses [procB, procA]).indexOf p < (sortProcesses [procB, procA]).indexOf q) ∧
    sortProcesses [procB, procA] = [procA, procB] ∧
    sortProcesses [procA, procB] = [procA, procB] :=
  sortProcesses_topological [procB, procA] (by decide) (by
    have hnoB : ∀ y, ¬ EdgeIn [procB, procA] procB y := by
      rintro y ⟨_, hy, he⟩
      rcases List.mem_cons.mp hy with rfl | hy'
      · exact absurd he (by decide)
      rcases List.mem_cons.mp hy' with rfl | h
      · exact absurd he (by decide)
      · exact absurd h (List.not_mem_nil _)
    intro p htg
    rcases transGen_head_cases htg with h | ⟨c, hac, hcb⟩
    · obtain ⟨hp, _, he⟩ := h
      rcases List.mem_cons.mp hp with rfl | hp'
      · exact absurd he (by decide)
      rcases List.mem_cons.mp hp' with rfl | h'
      · exact absurd he (by decide)
      · exact absurd h' (List.not_mem_nil _)
    · obtain ⟨hp, hcm, he⟩ := hac
      rcases List.mem_cons.mp hp with rfl | hp'
      · exact hnoB c ⟨hp, hcm, he⟩
      rcases List.mem_cons.mp hp' with rfl | h'
      · rcases List.mem_cons.mp hcm with rfl | hcm'
        · exact no_transGen_of_no_out _ procB hnoB procA hcb
        rcases List.mem_cons.mp hcm' with rfl | h''
        · exact absurd he (by decide)
        · exact absurd h'' (List.not_mem_nil _)
      · exact absurd h' (List.not_mem_nil _))
